import Mathlib

/-!
Verification of the Italo train-scraper normalization and feed-build pipeline.

Shallow embedding of:
* src/scraper/normalize_italo.py  (time parsing, midnight-rollover inference,
  per-stop departure correction, endpoint sanitization),
* src/scraper/build_gtfs.py       (coordinate gate, stop registry, trip assembly,
  route dedup/usage filter, deterministic ordering),
* src/scraper/report_missing_routes.py (route long-name splitting).

Machine integers do not occur; Python ints are modelled as Nat / Int. I/O,
argparse, CSV/zip serialization and the print-only summary counters are at the
edges of the source and are not modelled; tables are modelled as the lists of
rows the source accumulates before serialization.
-/

set_option maxRecDepth 10000

namespace ItaloScraper

/-- ASCII digit test, modelling the regex digit class `\d` (code points 48-57). -/
def digitChar (c : Char) : Bool := decide (48 ≤ c.toNat) && decide (c.toNat ≤ 57)

/-- Numeric value of an ASCII digit character. -/
def digitVal (c : Char) : Nat := c.toNat - 48

/-- Character-level body of normalize_italo.py `parse_hhmm`: the string must match
`TIME_RE` (two digits, colon, two digits, nothing else; code point 58 is the colon),
and then `int(hh) * 60 + int(mm)` is returned. Python's `$` also tolerating one
trailing newline is not modelled. -/
def parseHHMMChars : List Char → Option Nat
  | [h1, h2, colon, m1, m2] =>
    if digitChar h1 && digitChar h2 && decide (colon.toNat = 58) && digitChar m1 && digitChar m2 then
      some ((10 * digitVal h1 + digitVal h2) * 60 + (10 * digitVal m1 + digitVal m2))
    else none
  | _ => none

/-- normalize_italo.py `parse_hhmm`: minutes since 00:00 for a `HH:MM` string, else
`None`. `if not s` makes both `None` and the empty string fall through to `None`
(the empty character list hits the catch-all branch of `parseHHMMChars`). -/
def parse_hhmm (s : Option String) : Option Nat :=
  match s with
  | none => none
  | some str => parseHHMMChars str.data

/-- Two-digit zero padding, modelling the Python format spec `02d` (numbers of
three or more digits are printed in full). -/
def pad2 (n : Nat) : String := if n < 10 then "0" ++ toString n else toString n

/-- normalize_italo.py `fmt_gtfs_time`: minutes since 00:00 (possibly ≥ 1440) to
`HH:MM:SS`, where `HH` may exceed 24. -/
def fmt_gtfs_time (minutes : Option Nat) : Option String :=
  minutes.map (fun m => pad2 (m / 60) ++ ":" ++ pad2 (m % 60) ++ ":00")

/-- Loop of normalize_italo.py `infer_rollover_minutes`, carrying the running day
`offset` and the last resolved value `prev` exactly as the Python loop does:
absent entries pass through untouched; a present value that would go backwards
bumps the offset by 1440 once and is recomputed. -/
def inferRolloverAux (offset : Nat) (prev : Option Nat) : List (Option Nat) → List (Option Nat)
  | [] => []
  | none :: ts => none :: inferRolloverAux offset prev ts
  | some t :: ts =>
    match prev with
    | none => some (t + offset) :: inferRolloverAux offset (some (t + offset)) ts
    | some p =>
      if t + offset < p then
        some (t + offset + 1440) :: inferRolloverAux (offset + 1440) (some (t + offset + 1440)) ts
      else
        some (t + offset) :: inferRolloverAux offset (some (t + offset)) ts

/-- normalize_italo.py `infer_rollover_minutes`. -/
def infer_rollover_minutes (times : List (Option Nat)) : List (Option Nat) :=
  inferRolloverAux 0 none times

/-- Per-stop consistency pass of `extract_stops_from_train_schedule` (lines
100-105): when both an arrival and departure resolved at a stop and the departure
is strictly earlier, 1440 is added to that departure alone. -/
def fixDeps : List (Option Nat) → List (Option Nat) → List (Option Nat)
  | some a :: arest, some d :: drest =>
    (if d < a then some (d + 1440) else some d) :: fixDeps arest drest
  | _ :: arest, d :: drest => d :: fixDeps arest drest
  | _, drest => drest

/-- Lines 96-105 of normalize_italo.py: rollover inference run independently on the
arrival and departure minute lists, then the per-stop departure correction. The
first component (arrivals) is returned untouched by the correction. -/
def reconcileTimes (arr dep : List (Option Nat)) : List (Option Nat) × List (Option Nat) :=
  (infer_rollover_minutes arr, fixDeps (infer_rollover_minutes arr) (infer_rollover_minutes dep))

/-- The present (non-`None`) values of a minute list, in order. -/
def presentVals (l : List (Option Nat)) : List Nat := l.filterMap id

/-- Boolean test that a list of naturals is non-decreasing. -/
def nondecB : List Nat → Bool
  | [] => true
  | [_] => true
  | a :: b :: t => decide (a ≤ b) && nondecB (b :: t)

lemma nondecB_cons (a b : Nat) (t : List Nat) (hab : a ≤ b) (h : nondecB (b :: t) = true) :
    nondecB (a :: b :: t) = true := by
  simp [nondecB, hab, h]

lemma inferRolloverAux_chain (ts : List (Option Nat)) :
    ∀ offset p, (∀ x ∈ ts, x.getD 0 < 1440) → p < offset + 1440 →
      nondecB (p :: presentVals (inferRolloverAux offset (some p) ts)) = true := by
  induction ts with
  | nil =>
    intro offset p _ _
    simp [inferRolloverAux, presentVals, nondecB]
  | cons x ts ih =>
    intro offset p hb hp
    have hbtail : ∀ y ∈ ts, y.getD 0 < 1440 := fun y hy => hb y (List.mem_cons_of_mem _ hy)
    match x with
    | none =>
      simpa [inferRolloverAux, presentVals] using ih offset p hbtail hp
    | some t =>
      have ht : t < 1440 := by simpa using hb (some t) (List.mem_cons_self _ _)
      by_cases hlt : t + offset < p
      · have h1 : p ≤ t + offset + 1440 := by omega
        have h2 : t + offset + 1440 < (offset + 1440) + 1440 := by omega
        have := ih (offset + 1440) (t + offset + 1440) hbtail h2
        simpa [inferRolloverAux, hlt, presentVals] using nondecB_cons _ _ _ h1 this
      · have h1 : p ≤ t + offset := by omega
        have h2 : t + offset < offset + 1440 := by omega
        have := ih offset (t + offset) hbtail h2
        simpa [inferRolloverAux, hlt, presentVals] using nondecB_cons _ _ _ h1 this

lemma inferRolloverAux_none_chain (ts : List (Option Nat)) :
    ∀ offset, (∀ x ∈ ts, x.getD 0 < 1440) →
      nondecB (presentVals (inferRolloverAux offset none ts)) = true := by
  induction ts with
  | nil =>
    intro offset _
    simp [inferRolloverAux, presentVals, nondecB]
  | cons x ts ih =>
    intro offset hb
    have hbtail : ∀ y ∈ ts, y.getD 0 < 1440 := fun y hy => hb y (List.mem_cons_of_mem _ hy)
    match x with
    | none =>
      simpa [inferRolloverAux, presentVals] using ih offset hbtail
    | some t =>
      have ht : t < 1440 := by simpa using hb (some t) (List.mem_cons_self _ _)
      have h2 : t + offset < offset + 1440 := by omega
      simpa [inferRolloverAux, presentVals] using
        inferRolloverAux_chain ts offset (t + offset) hbtail h2

lemma infer_rollover_nondec (times : List (Option Nat)) (hb : ∀ x ∈ times, x.getD 0 < 1440) :
    nondecB (presentVals (infer_rollover_minutes times)) = true :=
  inferRolloverAux_none_chain times 0 hb

/-- C1 (amended): for minute lists whose present values are valid same-day clock
readings (< 1440, as produced by `parse_hhmm` on well-formed `HH:MM` strings with
`HH ≤ 23`), the reconciled arrival sequence — which the per-stop departure
correction never alters — is non-decreasing over present entries, and the
departure sequence is non-decreasing after rollover inference, i.e. before the
per-stop correction.  The per-stop correction itself can make the departure
sequence decrease (see the counterexample), so the original claim fails for the
corrected departure sequence. -/
theorem C1_rollover_monotone (arr dep : List (Option Nat))
    (harr : ∀ x ∈ arr, x.getD 0 < 1440)
    (hdep : ∀ x ∈ dep, x.getD 0 < 1440) :
    (reconcileTimes arr dep).1 = infer_rollover_minutes arr ∧
    nondecB (presentVals (infer_rollover_minutes arr)) = true ∧
    nondecB (presentVals (infer_rollover_minutes dep)) = true :=
  ⟨rfl, infer_rollover_nondec arr harr, infer_rollover_nondec dep hdep⟩

/-- Witness for `C1_rollover_monotone` at a concrete trip: arrivals
23:00 / — / 00:05, departures 23:50 / 01:10. -/
theorem C1_rollover_monotone_witness :
    ((∀ x ∈ ([some 1380, none, some 5] : List (Option Nat)), x.getD 0 < 1440) ∧
      (∀ x ∈ ([some 1430, some 70] : List (Option Nat)), x.getD 0 < 1440)) ∧
    ((reconcileTimes [some 1380, none, some 5] [some 1430, some 70]).1 =
        infer_rollover_minutes [some 1380, none, some 5] ∧
      nondecB (presentVals (infer_rollover_minutes [some 1380, none, some 5])) = true ∧
      nondecB (presentVals (infer_rollover_minutes [some 1430, some 70])) = true) :=
  ⟨by decide, C1_rollover_monotone _ _ (by decide) (by decide)⟩

/-- C1 counterexample: stop 0 has arrival 23:50 and departure 00:10, stop 1 has no
arrival and departure 00:20.  Rollover inference leaves departures at [10, 20];
the per-stop correction bumps stop 0's departure to 1450 because it precedes the
1430 arrival, and the reconciled departure sequence 1450, 20 decreases.  All
input values are valid clock readings, so the claimed monotonicity fails on the
code's reconciled departure sequence. -/
theorem C1_counterexample :
    nondecB (presentVals (reconcileTimes [some 1430, none, none] [some 10, some 20, none]).2)
      = false := by decide

/-- C8 counterexample: the string 25:00 matches `TIME_RE` (any two digits accepted
for the hour), so `parse_hhmm` returns 1500, which is outside the claimed
0-1439 range and not absent. -/
theorem C8_counterexample :
    parse_hhmm (some ("25:00")) = some 1500 ∧ ¬ (1500 ≤ 1439) := by decide

lemma digitVal_le_of_digitChar {c : Char} (h : digitChar c = true) : digitVal c ≤ 9 := by
  have h1 : 48 ≤ c.toNat ∧ c.toNat ≤ 57 := by
    simpa [digitChar, Bool.and_eq_true, decide_eq_true_iff] using h
  simp only [digitVal]
  omega

/-- `parse_hhmm` returns absent exactly when the character list is not of the
form digit, digit, colon, digit, digit. -/
lemma parseHHMMChars_none_iff (l : List Char) :
    parseHHMMChars l = none ↔
      ¬ ∃ h1 h2 colon m1 m2, l = [h1, h2, colon, m1, m2] ∧ colon.toNat = 58 ∧
        digitChar h1 = true ∧ digitChar h2 = true ∧ digitChar m1 = true ∧
        digitChar m2 = true := by
  match l with
  | [] =>
    refine iff_of_true rfl ?_
    rintro ⟨h1, h2, colon, m1, m2, heq, -⟩
    exact List.noConfusion heq
  | [a] =>
    refine iff_of_true rfl ?_
    rintro ⟨h1, h2, colon, m1, m2, heq, -⟩
    simp at heq
  | [a, b] =>
    refine iff_of_true rfl ?_
    rintro ⟨h1, h2, colon, m1, m2, heq, -⟩
    simp at heq
  | [a, b, c] =>
    refine iff_of_true rfl ?_
    rintro ⟨h1, h2, colon, m1, m2, heq, -⟩
    simp at heq
  | [a, b, c, d] =>
    refine iff_of_true rfl ?_
    rintro ⟨h1, h2, colon, m1, m2, heq, -⟩
    simp at heq
  | a :: b :: c :: d :: e :: f :: rest =>
    refine iff_of_true rfl ?_
    rintro ⟨h1, h2, colon, m1, m2, heq, -⟩
    simp at heq
  | [a, b, c, d, e] =>
    by_cases hc : (digitChar a && digitChar b && decide (c.toNat = 58) &&
        digitChar d && digitChar e) = true
    · refine iff_of_false ?_ ?_
      · simp only [parseHHMMChars]
        rw [if_pos hc]
        exact fun h => Option.noConfusion h
      · simp only [Bool.and_eq_true, decide_eq_true_iff] at hc
        exact not_not_intro
          ⟨a, b, c, d, e, rfl, hc.1.1.2, hc.1.1.1.1, hc.1.1.1.2, hc.1.2, hc.2⟩
    · refine iff_of_true ?_ ?_
      · simp only [parseHHMMChars]
        rw [if_neg hc]
      · rintro ⟨h1, h2, colon, m1, m2, heq, hcol, hd1, hd2, hd3, hd4⟩
        injection heq with e1 heq
        injection heq with e2 heq
        injection heq with e3 heq
        injection heq with e4 heq
        injection heq with e5 _
        subst e1; subst e2; subst e3; subst e4; subst e5
        exact hc (by simp [hd1, hd2, hd3, hd4, hcol])

/-- On a matching character list, `parse_hhmm` returns exactly
`(10*h1 + h2) * 60 + (10*m1 + m2)`. -/
lemma parseHHMMChars_match (h1 h2 colon m1 m2 : Char) (hcol : colon.toNat = 58)
    (hd1 : digitChar h1 = true) (hd2 : digitChar h2 = true)
    (hd3 : digitChar m1 = true) (hd4 : digitChar m2 = true) :
    parseHHMMChars [h1, h2, colon, m1, m2]
      = some ((10 * digitVal h1 + digitVal h2) * 60 + (10 * digitVal m1 + digitVal m2)) := by
  simp only [parseHHMMChars]
  rw [if_pos (by simp [hd1, hd2, hd3, hd4, hcol])]

/-- C8 (amended): `parse_hhmm` returns absent — never zero — for `None`, for the
empty string, and exactly for every string not matching the pattern two digits,
colon, two digits (the iff pins the behavior on all unparseable input); on a
matching string it returns exactly `h*60 + m` for the two two-digit numbers `h`
and `m`, each at most 99 — so values up to 6039 occur, not the claimed 0-1439
bound — and the result lies in 0-1439 whenever the string is a genuine 24-hour
reading (`h ≤ 23`, `m ≤ 59`). -/
theorem C8_parse_range :
    parse_hhmm none = none ∧
    parse_hhmm (some ("")) = none ∧
    (∀ str : String, parse_hhmm (some str) = none ↔
      ¬ ∃ h1 h2 colon m1 m2, str.data = [h1, h2, colon, m1, m2] ∧ colon.toNat = 58 ∧
        digitChar h1 = true ∧ digitChar h2 = true ∧ digitChar m1 = true ∧
        digitChar m2 = true) ∧
    (∀ (str : String) (h1 h2 colon m1 m2 : Char),
      str.data = [h1, h2, colon, m1, m2] → colon.toNat = 58 →
      digitChar h1 = true → digitChar h2 = true → digitChar m1 = true → digitChar m2 = true →
      parse_hhmm (some str) = some ((10 * digitVal h1 + digitVal h2) * 60 +
        (10 * digitVal m1 + digitVal m2)) ∧
      10 * digitVal h1 + digitVal h2 ≤ 99 ∧ 10 * digitVal m1 + digitVal m2 ≤ 99 ∧
      (10 * digitVal h1 + digitVal h2 ≤ 23 → 10 * digitVal m1 + digitVal m2 ≤ 59 →
        (10 * digitVal h1 + digitVal h2) * 60 + (10 * digitVal m1 + digitVal m2) ≤ 1439)) := by
  refine ⟨rfl, rfl, ?_, ?_⟩
  · intro str
    have e : parse_hhmm (some str) = parseHHMMChars str.data := rfl
    rw [e]
    exact parseHHMMChars_none_iff str.data
  · intro str h1 h2 colon m1 m2 hdata hcol hd1 hd2 hd3 hd4
    have e : parse_hhmm (some str) = parseHHMMChars str.data := rfl
    rw [e, hdata]
    refine ⟨parseHHMMChars_match h1 h2 colon m1 m2 hcol hd1 hd2 hd3 hd4, ?_, ?_, ?_⟩
    · have e1 := digitVal_le_of_digitChar hd1
      have e2 := digitVal_le_of_digitChar hd2
      omega
    · have e1 := digitVal_le_of_digitChar hd3
      have e2 := digitVal_le_of_digitChar hd4
      omega
    · intro hh hm
      omega

/-! ### Python string utilities -/

/-- ASCII whitespace, modelling the characters `str.strip()` removes in the data
this pipeline sees (space, tab, newline, vertical tab, form feed, carriage return). -/
def isSpaceChar (c : Char) : Bool :=
  decide (c.toNat = 32) || decide (c.toNat = 9) || decide (c.toNat = 10) ||
    decide (c.toNat = 11) || decide (c.toNat = 12) || decide (c.toNat = 13)

/-- Python `str.strip()` on the character list: whitespace dropped from both ends. -/
def stripChars (l : List Char) : List Char :=
  ((l.dropWhile isSpaceChar).reverse.dropWhile isSpaceChar).reverse

/-- Python `str.strip()`. -/
def pyStrip (s : String) : String := String.mk (stripChars s.data)

lemma dropWhile_self (p : Char → Bool) (l : List Char) :
    (l.dropWhile p).dropWhile p = l.dropWhile p := by
  induction l with
  | nil => rfl
  | cons a t ih =>
    by_cases h : p a = true
    · rw [List.dropWhile_cons, if_pos h, ih]
    · rw [List.dropWhile_cons, if_neg h, List.dropWhile_cons, if_neg h]

lemma exists_append_dropWhile (p : Char → Bool) (l : List Char) :
    ∃ t, l = t ++ l.dropWhile p := by
  induction l with
  | nil => exact ⟨[], rfl⟩
  | cons a t ih =>
    by_cases h : p a = true
    · obtain ⟨u, hu⟩ := ih
      refine ⟨a :: u, ?_⟩
      rw [List.dropWhile_cons, if_pos h, List.cons_append]
      exact congrArg (a :: ·) hu
    · exact ⟨[], by rw [List.dropWhile_cons, if_neg h, List.nil_append]⟩

lemma head_dropWhile_false (p : Char → Bool) (l : List Char) (c : Char) (t : List Char)
    (h : l.dropWhile p = c :: t) : p c = false := by
  induction l with
  | nil => exact absurd h (by simp)
  | cons a u ih =>
    by_cases ha : p a = true
    · rw [List.dropWhile_cons, if_pos ha] at h
      exact ih h
    · rw [List.dropWhile_cons, if_neg ha] at h
      injection h with h1 _
      subst h1
      revert ha
      cases p a <;> simp

lemma dropWhile_eq_self_of_head (u : List Char)
    (h : ∀ c t, u = c :: t → isSpaceChar c = false) :
    u.dropWhile isSpaceChar = u := by
  cases u with
  | nil => rfl
  | cons c t =>
    have hc := h c t rfl
    rw [List.dropWhile_cons, if_neg (by simp [hc])]

lemma stripChars_dropWhile (u : List Char) :
    (stripChars u).dropWhile isSpaceChar = stripChars u := by
  apply dropWhile_eq_self_of_head
  intro c t hct
  obtain ⟨w, hw⟩ := exists_append_dropWhile isSpaceChar (u.dropWhile isSpaceChar).reverse
  have hm : u.dropWhile isSpaceChar =
      ((u.dropWhile isSpaceChar).reverse.dropWhile isSpaceChar).reverse ++ w.reverse := by
    have h2 := congrArg List.reverse hw
    simpa [List.reverse_append] using h2
  rw [show ((u.dropWhile isSpaceChar).reverse.dropWhile isSpaceChar).reverse = stripChars u
      from rfl, hct] at hm
  exact head_dropWhile_false isSpaceChar u c (t ++ w.reverse) (by simpa using hm)

lemma stripChars_idem (l : List Char) : stripChars (stripChars l) = stripChars l := by
  have h1 : stripChars (stripChars l) =
      (((stripChars l).dropWhile isSpaceChar).reverse.dropWhile isSpaceChar).reverse := rfl
  rw [h1, stripChars_dropWhile l]
  have h2 : (stripChars l).reverse = (l.dropWhile isSpaceChar).reverse.dropWhile isSpaceChar := by
    simp [stripChars]
  rw [h2, dropWhile_self]
  rfl

lemma pyStrip_idem (s : String) : pyStrip (pyStrip s) = pyStrip s :=
  congrArg String.mk (stripChars_idem s.data)

/-! ### normalize_italo.py: per-train stop extraction (lines 92-133) -/

/-- One raw stop descriptor as consumed by `extract_stops_from_train_schedule`:
`StationNumber` (absent or non-numeric modelled as absent), `LocationDescription`,
`LocationCode`, and the two estimated clock strings.  The `RfiLocationCode`
pass-through field is not read by any later stage and is omitted. -/
structure RawStop where
  stationNumber : Option Nat
  locationDescription : Option String
  locationCode : Option String
  estimatedArrivalTime : Option String
  estimatedDepartureTime : Option String
  deriving DecidableEq

/-- `station_num`: the sort key, with `10^9` as the missing/unparseable default. -/
def station_num (s : RawStop) : Nat := s.stationNumber.getD (10 ^ 9)

/-- One entry of the normalized record's `stops` array (the fields later stages
read, plus the emitted `stop_sequence`). -/
structure NormStop where
  stop_sequence : Nat
  stop_name : Option String
  location_code : Option String
  arrival_time : Option String
  departure_time : Option String
  deriving DecidableEq

/-- The emission loop of `extract_stops_from_train_schedule` (lines 107-133) over
the station-number-sorted raw stops and the two reconciled minute lists, carrying
the enumeration index `i`: the first stop's arrival and the last stop's departure
are discarded, everything else is formatted with `fmt_gtfs_time`. -/
def mkNormStops : Nat → List RawStop → List (Option Nat) → List (Option Nat) → List NormStop
  | _, [], _, _ => []
  | i, s :: rest, a :: arest, d :: drest =>
    { stop_sequence := if station_num s = 10 ^ 9 then i else station_num s,
      stop_name := s.locationDescription,
      location_code := s.locationCode,
      arrival_time := if i = 0 then none else fmt_gtfs_time a,
      departure_time := if rest.isEmpty then none else fmt_gtfs_time d } ::
      mkNormStops (i + 1) rest arest drest
  | _, _ :: _, _, _ => []

/-- Lines 92-133 of normalize_italo.py applied to the already-sorted raw stop
list: parse the two clock strings per stop, reconcile (rollover inference plus
per-stop departure fix), then emit normalized stops with sanitized endpoints. -/
def extractStops (raw : List RawStop) : List NormStop :=
  let rt := reconcileTimes (raw.map (fun s => parse_hhmm s.estimatedArrivalTime))
      (raw.map (fun s => parse_hhmm s.estimatedDepartureTime))
  mkNormStops 0 raw rt.1 rt.2

lemma inferRolloverAux_length :
    ∀ (ts : List (Option Nat)) (offset : Nat) (prev : Option Nat),
      (inferRolloverAux offset prev ts).length = ts.length := by
  intro ts
  induction ts with
  | nil => intro offset prev; rfl
  | cons x rest ih =>
    intro offset prev
    match x with
    | none => simp [inferRolloverAux, ih]
    | some t =>
      match prev with
      | none => simp [inferRolloverAux, ih]
      | some p =>
        by_cases h : t + offset < p
        · simp [inferRolloverAux, h, ih]
        · simp [inferRolloverAux, h, ih]

lemma infer_rollover_length (ts : List (Option Nat)) :
    (infer_rollover_minutes ts).length = ts.length :=
  inferRolloverAux_length ts 0 none

lemma fixDeps_length : ∀ (a d : List (Option Nat)), (fixDeps a d).length = d.length := by
  intro a
  induction a with
  | nil => intro d; cases d <;> rfl
  | cons x arest ih =>
    intro d
    cases d with
    | nil => cases x <;> rfl
    | cons y drest =>
      cases x with
      | none => simp [fixDeps, ih]
      | some xa =>
        cases y with
        | none => simp [fixDeps, ih]
        | some yd => by_cases h : yd < xa <;> simp [fixDeps, h, ih]

lemma mkNormStops_getLast_dep :
    ∀ (raw : List RawStop) (i : Nat) (arr dep : List (Option Nat)),
      raw ≠ [] → arr.length = raw.length → dep.length = raw.length →
      ((mkNormStops i raw arr dep).getLast?.map NormStop.departure_time) = some none := by
  intro raw
  induction raw with
  | nil => intro i arr dep h _ _; exact absurd rfl h
  | cons s rest ih =>
    intro i arr dep _ ha hd
    match arr, ha, dep, hd with
    | a :: arest, ha, d :: drest, hd =>
      cases rest with
      | nil =>
        match arest, ha, drest, hd with
        | [], _, [], _ => simp [mkNormStops]
      | cons s2 rest2 =>
        have ha' : arest.length = (s2 :: rest2).length := by simpa using ha
        have hd' : drest.length = (s2 :: rest2).length := by simpa using hd
        match arest, ha', drest, hd' with
        | a2 :: arest2, ha', d2 :: drest2, hd' =>
          have ihr := ih (i + 1) (a2 :: arest2) (d2 :: drest2) (by simp) ha' hd'
          simp only [mkNormStops]
          rw [List.getLast?_cons_cons]
          simpa [mkNormStops] using ihr

/-- C2 (amended): the boundary stripping happens in the normalizer's emitted
record: for every nonempty raw stop list, the first normalized stop's arrival
and the last normalized stop's departure are absent, regardless of the source
clock strings.  The original claim — absence in the feed-build's emitted
stop-times — fails, because `normalize_arr_dep` backfills each missing side from
the present one (see the counterexample). -/
theorem C2_boundary_stripping (raw : List RawStop) (hne : raw ≠ []) :
    ((extractStops raw).head?.map NormStop.arrival_time) = some none ∧
    ((extractStops raw).getLast?.map NormStop.departure_time) = some none := by
  have harr : (reconcileTimes (raw.map (fun s => parse_hhmm s.estimatedArrivalTime))
      (raw.map (fun s => parse_hhmm s.estimatedDepartureTime))).1.length = raw.length := by
    simp [reconcileTimes, infer_rollover_length]
  have hdep : (reconcileTimes (raw.map (fun s => parse_hhmm s.estimatedArrivalTime))
      (raw.map (fun s => parse_hhmm s.estimatedDepartureTime))).2.length = raw.length := by
    simp [reconcileTimes, fixDeps_length, infer_rollover_length]
  constructor
  · match raw, hne, harr, hdep with
    | s :: rest, _, harr, hdep =>
      match h1 : (reconcileTimes ((s :: rest).map (fun s => parse_hhmm s.estimatedArrivalTime))
          ((s :: rest).map (fun s => parse_hhmm s.estimatedDepartureTime))).1,
        h2 : (reconcileTimes ((s :: rest).map (fun s => parse_hhmm s.estimatedArrivalTime))
          ((s :: rest).map (fun s => parse_hhmm s.estimatedDepartureTime))).2 with
      | [], _ => rw [h1] at harr; simp at harr
      | _ :: _, [] => rw [h2] at hdep; simp at hdep
      | a :: arest, d :: drest =>
        show ((mkNormStops 0 (s :: rest) _ _).head?.map NormStop.arrival_time) = some none
        rw [h1, h2]
        simp [mkNormStops]
  · exact mkNormStops_getLast_dep raw 0 _ _ hne harr hdep

/-- Witness for `C2_boundary_stripping` at a concrete two-stop raw list whose
first stop carries an arrival string and whose last stop carries a departure
string; both are discarded in the normalized record. -/
theorem C2_boundary_stripping_witness :
    (([⟨some 1, some ("Roma"), some ("RMT"), some ("08:00"), some ("08:05")⟩,
        ⟨some 2, some ("Milano"), some ("MIL"), some ("11:00"), some ("11:05")⟩] :
        List RawStop) ≠ []) ∧
    (((extractStops [⟨some 1, some ("Roma"), some ("RMT"), some ("08:00"), some ("08:05")⟩,
        ⟨some 2, some ("Milano"), some ("MIL"), some ("11:00"), some ("11:05")⟩]).head?.map
        NormStop.arrival_time) = some none ∧
      ((extractStops [⟨some 1, some ("Roma"), some ("RMT"), some ("08:00"), some ("08:05")⟩,
        ⟨some 2, some ("Milano"), some ("MIL"), some ("11:00"), some ("11:05")⟩]).getLast?.map
        NormStop.departure_time) = some none) :=
  ⟨by decide, C2_boundary_stripping _ (by decide)⟩

/-! ### build_gtfs.py: coordinate gate and stop registry -/

/-- The loaded coordinate table of build_gtfs.py (`coords_by_name` after
`load_coords_csv`): display name mapped to latitude/longitude strings.  The
Python dict is modelled as an association list with one entry per name. -/
abbrev Coords := List (String × String × String)

/-- `coords_by_name.get(name, ("", ""))`. -/
def lookupCoord (coords : Coords) (name : String) : String × String :=
  match coords.find? (fun p => decide (p.1 = name)) with
  | some p => p.2
  | none => ((""), (""))

/-- A decimal-literal parse result: numerator and number of fractional digits,
so the represented value is `num / 10^scale`. -/
def splitDot : List Char → List Char × Option (List Char)
  | [] => ([], none)
  | c :: rest =>
    if c.toNat = 46 then ([], some rest)
    else
      let r := splitDot rest
      (c :: r.1, r.2)

def natOfDigits (l : List Char) : Nat :=
  l.foldl (fun acc c => 10 * acc + digitVal c) 0

/-- Models Python `float()` on the decimal literals a coordinate CSV holds:
optional sign (code points 45 `-` / 43 `+`), digits, at most one dot (code
point 46), at least one digit overall.  Exponent, `inf` and `nan` spellings are
treated as non-numeric — in the source, `inf` would fail the subsequent range
check and `nan` compares false, so `has_valid_coord` agrees on them anyway. -/
def parseDecimal (s : String) : Option (Int × Nat) :=
  let signAndRest : Bool × List Char :=
    match s.data with
    | c :: rest =>
      if c.toNat = 45 then (true, rest)
      else if c.toNat = 43 then (false, rest)
      else (false, s.data)
    | [] => (false, [])
  let ip := (splitDot signAndRest.2).1
  let fp := ((splitDot signAndRest.2).2).getD []
  if ip.all digitChar && fp.all digitChar && (decide (ip ≠ []) || decide (fp ≠ [])) then
    some ((if signAndRest.1 then -(natOfDigits (ip ++ fp) : Int) else (natOfDigits (ip ++ fp) : Int)),
      fp.length)
  else none

/-- `lo ≤ num / 10^scale ≤ hi`, on integers. -/
def inRangeScaled (v : Int × Nat) (lo hi : Int) : Bool :=
  decide (lo * (10 : Int) ^ v.2 ≤ v.1) && decide (v.1 ≤ hi * (10 : Int) ^ v.2)

/-- build_gtfs.py `has_valid_coord`: both strings nonempty, both numeric, latitude
within [-90, 90] and longitude within [-180, 180]. -/
def has_valid_coord (lat lon : String) : Bool :=
  if lat = ("") ∨ lon = ("") then false
  else
    match parseDecimal lat, parseDecimal lon with
    | some la, some lo => inRangeScaled la (-90) 90 && inRangeScaled lo (-180) 180
    | _, _ => false

/-- build_gtfs.py `coords_for_name` (closure in `main`): strip the name, then look
it up in the coordinate table with `("", "")` as default. -/
def coords_for_name (coords : Coords) (name : String) : String × String :=
  lookupCoord coords (pyStrip name)

/-- build_gtfs.py `keep_stop` (closure in `main`). -/
def keep_stop (coords : Coords) (name : String) : Bool :=
  has_valid_coord (coords_for_name coords name).1 (coords_for_name coords name).2

/-- build_gtfs.py `normalize_arr_dep`: strip both, then copy the present side over
the missing one so both fields are populated. -/
def normalize_arr_dep (arr dep : String) : String × String :=
  let a := pyStrip arr
  let d := pyStrip dep
  if a ≠ ("") ∧ d = ("") then (a, a)
  else if d ≠ ("") ∧ a = ("") then (d, d)
  else (a, d)

/-- build_gtfs.py `stop_key` (closure in `main`): trimmed code if nonempty, else
trimmed name. -/
def stop_key (code name : String) : String :=
  if pyStrip code ≠ ("") then pyStrip code else pyStrip name

/-- One row of stops.txt: stop_id, stop_name, stop_lat, stop_lon, stop_code. -/
structure StopRow where
  stop_id : String
  stop_name : String
  stop_lat : String
  stop_lon : String
  stop_code : String
  deriving DecidableEq

/-- One row of stop_times.txt.  `stop_sequence` is held as a number; the CSV
writer serializes it with `str(seq)`. -/
structure StopTimeRow where
  trip_id : String
  arrival_time : String
  departure_time : String
  stop_id : String
  stop_sequence : Nat
  deriving DecidableEq

/-- One row of routes.txt. -/
structure RouteRow where
  route_id : String
  agency_id : String
  route_short_name : String
  route_long_name : String
  route_type : String
  deriving DecidableEq

/-- One row of trips.txt. -/
structure TripRow where
  route_id : String
  service_id : String
  trip_id : String
  trip_short_name : String
  deriving DecidableEq

/-- The mutable state `ensure_stop` works on: `stop_id_by_key`, `stops_rows` and
`seen_stop_ids` of build_gtfs.py `main`. -/
structure Registry where
  stopIdByKey : List (String × String)
  stopsRows : List StopRow
  seenStopIds : List String
  deriving DecidableEq

/-- The key `ensure_stop` uses: `stop_key`, with the defensive `"UNKNOWN"`
fallback for an empty key. -/
def ensKey (code name : String) : String :=
  if stop_key code name = ("") then ("UNKNOWN") else stop_key code name

/-- `stop_name = (name or key).strip() or key` of `ensure_stop`. -/
def ensRowName (name key : String) : String :=
  if pyStrip (if name = ("") then key else name) = ("") then key
  else pyStrip (if name = ("") then key else name)

/-- The defensive coordinate re-check of `ensure_stop`: the looked-up pair if it
is valid, else blanks. -/
def ensRowLatLon (coords : Coords) (snm : String) : String × String :=
  if has_valid_coord (coords_for_name coords snm).1 (coords_for_name coords snm).2 = true
  then coords_for_name coords snm else ((""), (""))

/-- The miss path of `ensure_stop`: record the key mapping, then append a stops
row unless the id was already seen. -/
def ensInsert (coords : Coords) (reg : Registry) (code name key : String) :
    Registry × String :=
  if ("STOP_") ++ key ∈ reg.seenStopIds then
    ({ reg with stopIdByKey := reg.stopIdByKey ++ [(key, ("STOP_") ++ key)] },
      ("STOP_") ++ key)
  else
    ({ stopIdByKey := reg.stopIdByKey ++ [(key, ("STOP_") ++ key)],
       seenStopIds := reg.seenStopIds ++ [("STOP_") ++ key],
       stopsRows := reg.stopsRows ++
         [⟨("STOP_") ++ key, ensRowName name key,
           (ensRowLatLon coords (ensRowName name key)).1,
           (ensRowLatLon coords (ensRowName name key)).2, pyStrip code⟩] },
      ("STOP_") ++ key)

/-- build_gtfs.py `ensure_stop` (closure in `main`). -/
def ensure_stop (coords : Coords) (reg : Registry) (code name : String) :
    Registry × String :=
  match reg.stopIdByKey.find? (fun p => decide (p.1 = ensKey code name)) with
  | some p => (reg, p.2)
  | none => ensInsert coords reg code name (ensKey code name)

/-- The per-trip stop loop of build_gtfs.py `main` (lines 173-191): skip stops
with empty names, skip stops failing the coordinate gate (counted only for the
printed summary, which is not modelled), register kept stops, normalize the two
time strings, and emit stop-times rows with the running kept-sequence counter. -/
def processStops (coords : Coords) (tripId : String) :
    Registry → Nat → List NormStop → Registry × List StopTimeRow
  | reg, _, [] => (reg, [])
  | reg, seq, s :: rest =>
    let name := pyStrip (s.stop_name.getD (""))
    let code := pyStrip (s.location_code.getD (""))
    if name = ("") then processStops coords tripId reg seq rest
    else if keep_stop coords name = false then processStops coords tripId reg seq rest
    else
      let es := ensure_stop coords reg code name
      let ad := normalize_arr_dep (s.arrival_time.getD ("")) (s.departure_time.getD (""))
      let next := processStops coords tripId es.1 (seq + 1) rest
      (next.1, ⟨tripId, ad.1, ad.2, es.2, seq⟩ :: next.2)

/-- One normalized per-train record, restricted to the fields build_gtfs.py
reads: `train_number`, `origin_station`, `destination_station`, `stops`. -/
structure NormTrip where
  train_number : String
  origin_station : Option String
  destination_station : Option String
  stops : List NormStop
  deriving DecidableEq

/-- The separator build_gtfs.py line 203 actually interpolates between origin and
destination: space, U+00E2, U+20AC, U+201C, space — the UTF-8 bytes of EN DASH
mis-decoded as Windows-1252 (mojibake), not an en dash. -/
def sepMangled : String :=
  String.mk [Char.ofNat 32, Char.ofNat 226, Char.ofNat 8364, Char.ofNat 8220, Char.ofNat 32]

/-- The route_long_name build_gtfs.py emits. -/
def route_long_name (origin dest : String) : String := origin ++ sepMangled ++ dest

/-- The accumulating state of the per-file loop of build_gtfs.py `main`. -/
structure BuildState where
  reg : Registry
  usedRouteIds : List String
  routesRows : List RouteRow
  tripsRows : List TripRow
  stopTimesRows : List StopTimeRow
  deriving DecidableEq

/-- The body of the per-file loop (lines 159-205): build the kept stop-times; if
fewer than 2 stops remain, drop the whole trip (registry changes persist);
otherwise record the used route id and append the route, trip and stop-times
rows. -/
def processTrip (coords : Coords) (serviceDate agencyId : String) (st : BuildState)
    (t : NormTrip) : BuildState :=
  let routeId := ("R_") ++ t.train_number
  let tripId := ("T_") ++ t.train_number ++ ("_") ++ serviceDate
  let pr := processStops coords tripId st.reg 0 t.stops
  if pr.2.length < 2 then { st with reg := pr.1 }
  else
    { reg := pr.1,
      usedRouteIds := st.usedRouteIds ++ [routeId],
      routesRows := st.routesRows ++
        [⟨routeId, agencyId, t.train_number,
          route_long_name (t.origin_station.getD ("")) (t.destination_station.getD ("")),
          ("2")⟩],
      tripsRows := st.tripsRows ++
        [⟨routeId, ("SVC_") ++ serviceDate, tripId, t.train_number⟩],
      stopTimesRows := st.stopTimesRows ++ pr.2 }

/-- Update-or-append on the association list modelling the `dedup_routes` dict. -/
def assocUpsert (acc : List (String × RouteRow)) (k : String) (v : RouteRow) :
    List (String × RouteRow) :=
  if acc.any (fun p => decide (p.1 = k)) then
    acc.map (fun p => if p.1 = k then (k, v) else p)
  else acc ++ [(k, v)]

/-- Lines 209-213: fold the per-trip route rows into a dict keyed by route id,
keeping only used ids; a repeated id keeps the last row, as dict assignment does. -/
def dedupFold (rows : List RouteRow) (used : List String) : List (String × RouteRow) :=
  rows.foldl (fun acc r => if r.route_id ∈ used then assocUpsert acc r.route_id r else acc) []

/-- Insertion into a list sorted by a string key (stable: equal keys keep
insertion order, like Python's `sorted`). -/
def insertLe {α : Type} (key : α → String) (x : α) : List α → List α
  | [] => [x]
  | y :: ys => if key x ≤ key y then x :: y :: ys else y :: insertLe key x ys

/-- Sorting by a string key, modelling Python `sorted`. -/
def sortByKey {α : Type} (key : α → String) : List α → List α
  | [] => []
  | x :: xs => insertLe key x (sortByKey key xs)

/-- Line 214: the deduplicated route rows, emitted in sorted key order. -/
def routesOut (rows : List RouteRow) (used : List String) : List RouteRow :=
  let dd := dedupFold rows used
  (sortByKey id (dd.map Prod.fst)).filterMap
    (fun rid => (dd.find? (fun p => decide (p.1 = rid))).map Prod.snd)

/-- The tabular outputs of one feed build, before CSV/zip serialization (each
`.txt` table is the serialization of the corresponding row list, so equal row
lists give byte-identical tables). -/
structure GTFSOutput where
  agencyRows : List (List String)
  stopsRows : List StopRow
  routesRows : List RouteRow
  tripsRows : List TripRow
  stopTimesRows : List StopTimeRow
  calendarRows : List (List String)
  feedInfoRows : List (List String)
  deriving DecidableEq

/-- build_gtfs.py `main` applied to the already-sorted normalized files.
`endDate` abstracts `datetime.now(timezone.utc).date() + 365 days`, an input of
the run. -/
def buildFromSorted (coords : Coords) (serviceDate agencyId agencyName endDate : String)
    (sorted : List (String × NormTrip)) : GTFSOutput :=
  let st := sorted.foldl (fun acc ft => processTrip coords serviceDate agencyId acc ft.2)
    ⟨⟨[], [], []⟩, [], [], [], []⟩
  { agencyRows := [[agencyId, agencyName, ("https://www.italotreno.com/"), ("Europe/Rome")]],
    stopsRows := st.reg.stopsRows,
    routesRows := routesOut st.routesRows st.usedRouteIds,
    tripsRows := st.tripsRows,
    stopTimesRows := st.stopTimesRows,
    calendarRows := [[("SVC_") ++ serviceDate, ("1"), ("1"), ("1"), ("1"), ("1"), ("1"), ("1"),
      serviceDate, endDate]],
    feedInfoRows := [[agencyName, ("https://www.italotreno.com/"), ("it"), serviceDate, endDate]] }

/-- build_gtfs.py `main`: the normalized files (name, parsed content) are
processed in sorted filename order (`for fn in sorted(norm_files)`); everything
else is a function of that sorted sequence. -/
def buildGTFS (coords : Coords) (serviceDate agencyId agencyName endDate : String)
    (files : List (String × NormTrip)) : GTFSOutput :=
  buildFromSorted coords serviceDate agencyId agencyName endDate (sortByKey Prod.fst files)

/-! ### C5: minimum-stop rule -/

/-- C5: a trip left with fewer than 2 stop-times after coordinate filtering
contributes nothing to the trips, stop-times and routes tables, nor to the
used-route set: the whole trip is discarded as a unit (lines 193-195). -/
theorem C5_min_stop_rule (coords : Coords) (d aid : String) (st : BuildState) (t : NormTrip)
    (h : (processStops coords (("T_") ++ t.train_number ++ ("_") ++ d)
        st.reg 0 t.stops).2.length < 2) :
    (processTrip coords d aid st t).tripsRows = st.tripsRows ∧
    (processTrip coords d aid st t).stopTimesRows = st.stopTimesRows ∧
    (processTrip coords d aid st t).routesRows = st.routesRows ∧
    (processTrip coords d aid st t).usedRouteIds = st.usedRouteIds := by
  simp only [processTrip]
  rw [if_pos h]
  exact ⟨rfl, rfl, rfl, rfl⟩

def c5coords : Coords := [(("Pisa"), ("43.7"), ("10.4"))]

def c5trip : NormTrip :=
  ⟨("9700"), some ("Pisa"), some ("Pisa"), [⟨0, some ("Pisa"), some ("PSA"), none, some ("09:00:00")⟩]⟩

def c5st : BuildState := ⟨⟨[], [], []⟩, [], [], [], []⟩

/-- Witness for `C5_min_stop_rule`: a trip with a single kept stop is dropped. -/
theorem C5_min_stop_rule_witness :
    ((processStops c5coords (("T_") ++ c5trip.train_number ++ ("_") ++ ("20250101"))
        c5st.reg 0 c5trip.stops).2.length < 2) ∧
    ((processTrip c5coords ("20250101") ("ITALO") c5st c5trip).tripsRows = c5st.tripsRows ∧
      (processTrip c5coords ("20250101") ("ITALO") c5st c5trip).stopTimesRows = c5st.stopTimesRows ∧
      (processTrip c5coords ("20250101") ("ITALO") c5st c5trip).routesRows = c5st.routesRows ∧
      (processTrip c5coords ("20250101") ("ITALO") c5st c5trip).usedRouteIds = c5st.usedRouteIds) :=
  ⟨by decide, C5_min_stop_rule c5coords ("20250101") ("ITALO") c5st c5trip (by decide)⟩

/-! ### C7: contiguous kept-stop sequence numbers -/

lemma processStops_seq (coords : Coords) (tid : String) :
    ∀ (stops : List NormStop) (reg : Registry) (seq : Nat),
      ((processStops coords tid reg seq stops).2.map StopTimeRow.stop_sequence)
        = List.range' seq (processStops coords tid reg seq stops).2.length := by
  intro stops
  induction stops with
  | nil => intro reg seq; rfl
  | cons s rest ih =>
    intro reg seq
    by_cases h1 : pyStrip (s.stop_name.getD ("")) = ("")
    · simp only [processStops]
      rw [if_pos h1]
      exact ih reg seq
    · by_cases h2 : keep_stop coords (pyStrip (s.stop_name.getD (""))) = false
      · simp only [processStops]
        rw [if_neg h1, if_pos h2]
        exact ih reg seq
      · simp only [processStops]
        rw [if_neg h1, if_neg h2]
        simp only [List.map_cons, List.length_cons]
        rw [ih, List.range'_succ]

/-- C7: within any trip, the emitted stop-times carry sequence numbers
`0, 1, ..., N-1` over the kept stops only, in kept order — the counter `seq`
advances only when a stop is kept, so dropped stops leave no gaps (lines
169-191; the kept rows are appended to stop_times.txt unchanged). -/
theorem C7_contiguous_sequences (coords : Coords) (tid : String) (reg : Registry)
    (stops : List NormStop) :
    ((processStops coords tid reg 0 stops).2.map StopTimeRow.stop_sequence)
      = List.range ((processStops coords tid reg 0 stops).2.length) := by
  rw [List.range_eq_range']
  exact processStops_seq coords tid stops reg 0

/-! ### C2 counterexample: the emitted stop-times backfill the stripped arrival -/

def c2raw : List RawStop :=
  [⟨some 1, some ("Afragola"), some ("AFR"), some ("09:55"), some ("10:00")⟩,
   ⟨some 2, some ("Bologna"), some ("BOL"), some ("11:00"), some ("11:05")⟩]

def c2coords : Coords := [(("Afragola"), ("40.9"), ("14.3")), (("Bologna"), ("44.5"), ("11.3"))]

def c2trip : NormTrip := ⟨("9910"), some ("Afragola"), some ("Bologna"), extractStops c2raw⟩

/-- C2 counterexample: the normalizer does strip the first stop's arrival
(`some none`), but the feed build's first emitted stop-times row for the
retained trip carries arrival `10:00:00` — `normalize_arr_dep` copied the
departure into it — so in the emitted stop-times the first kept stop does have
an arrival value, refuting the claim as stated. -/
theorem C2_counterexample :
    ((extractStops c2raw).head?.map NormStop.arrival_time) = some none ∧
    ((buildGTFS c2coords ("20250101") ("ITALO") ("Italo") ("20260101")
        [(("9910.normalized.json"), c2trip)]).stopTimesRows.head?.map
        StopTimeRow.arrival_time) = some ("10:00:00") ∧
    ("10:00:00" : String) ≠ ("") := by decide

/-! ### C9: the route long-name separator -/

/-- The en-dash separator (space, U+2013, space) the downstream reporter splits
on, per report_missing_routes.py lines 95-96. -/
def sepEnDash : String := String.mk [Char.ofNat 32, Char.ofNat 8211, Char.ofNat 32]

/-- The hyphen fallback separator (space, U+002D, space) of lines 98-99. -/
def sepHyphen : String := String.mk [Char.ofNat 32, Char.ofNat 45, Char.ofNat 32]

/-- Boolean test that the second list begins with the first. -/
def beginsWith : List Char → List Char → Bool
  | [], _ => true
  | _ :: _, [] => false
  | a :: arest, b :: brest => decide (a = b) && beginsWith arest brest

/-- Leftmost-occurrence single split, modelling Python `s.split(sep, 1)` for a
nonempty separator. -/
def splitOnceAux (sep : List Char) : List Char → Option (List Char × List Char)
  | [] => none
  | c :: rest =>
    if beginsWith sep (c :: rest) then some ([], List.drop sep.length (c :: rest))
    else
      match splitOnceAux sep rest with
      | some pr => some (c :: pr.1, pr.2)
      | none => none

def split_once (sep s : String) : Option (String × String) :=
  if sep.data.isEmpty then none
  else
    match splitOnceAux sep.data s.data with
    | some pr => some (String.mk pr.1, String.mk pr.2)
    | none => none

/-- report_missing_routes.py `parse_route_long_name`: strip, split once on the
en dash, falling back to the hyphen, else return the whole string with an empty
arrival label. -/
def parse_route_long_name (rln : String) : String × String :=
  match split_once sepEnDash (pyStrip rln) with
  | some ab => (pyStrip ab.1, pyStrip ab.2)
  | none =>
    match split_once sepHyphen (pyStrip rln) with
    | some ab => (pyStrip ab.1, pyStrip ab.2)
    | none => (pyStrip (pyStrip rln), (""))

/-- C9: build_gtfs.py emits the long name with the mojibake separator
(U+00E2 U+20AC U+201C), not the en dash the claim and the reporter's own
docstring state; consequently `parse_route_long_name` fails to split the
emitted long name (it returns the whole string and an empty arrival label),
while a properly en-dashed long name would split into (origin, destination). -/
theorem C9_separator_mismatch :
    route_long_name ("Roma") ("Milano") ≠ ("Roma") ++ sepEnDash ++ ("Milano") ∧
    parse_route_long_name (route_long_name ("Roma") ("Milano"))
      = (route_long_name ("Roma") ("Milano"), ("")) ∧
    parse_route_long_name (("Roma") ++ sepEnDash ++ ("Milano")) = (("Roma"), ("Milano")) := by
  decide

/-! ### C10: stops are registered before the minimum-stop check -/

def c10coords : Coords := [(("Caserta"), ("41.07"), ("14.33"))]

def c10trip : NormTrip :=
  ⟨("9600"), some ("Caserta"), some ("Caserta"),
    [⟨0, some ("Caserta"), some ("CE"), none, some ("09:00:00")⟩]⟩

def c10files : List (String × NormTrip) := [(("9600.normalized.json"), c10trip)]

/-- C10: `ensure_stop` runs inside the per-stop loop, so the registry resulting
from a trip is the registry left by `processStops` whether or not the trip
passes the minimum-stop check; consequently, on a run whose only trip has one
valid stop, the emitted stops table contains a stop id referenced by no
stop-times row (and no trip row exists at all). -/
theorem C10_eager_stop_registration :
    (∀ (coords : Coords) (d aid : String) (st : BuildState) (t : NormTrip),
        (processTrip coords d aid st t).reg =
          (processStops coords (("T_") ++ t.train_number ++ ("_") ++ d) st.reg 0 t.stops).1) ∧
    ((buildGTFS c10coords ("20250101") ("ITALO") ("Italo") ("20260101") c10files).tripsRows = []
      ∧ ∃ row ∈ (buildGTFS c10coords ("20250101") ("ITALO") ("Italo") ("20260101")
            c10files).stopsRows,
          ∀ strow ∈ (buildGTFS c10coords ("20250101") ("ITALO") ("Italo") ("20260101")
              c10files).stopTimesRows, strow.stop_id ≠ row.stop_id) := by
  constructor
  · intro coords d aid st t
    simp only [processTrip]
    split <;> rfl
  · decide

/-! ### Sorting lemmas and C3: determinism -/

lemma insertLe_perm {α : Type} (key : α → String) (x : α) (l : List α) :
    (insertLe key x l).Perm (x :: l) := by
  induction l with
  | nil => exact List.Perm.refl _
  | cons y ys ih =>
    by_cases h : key x ≤ key y
    · simp only [insertLe]
      rw [if_pos h]
    · simp only [insertLe]
      rw [if_neg h]
      exact (ih.cons y).trans (List.Perm.swap x y ys)

lemma sortByKey_perm {α : Type} (key : α → String) (l : List α) :
    (sortByKey key l).Perm l := by
  induction l with
  | nil => exact List.Perm.refl _
  | cons x xs ih => exact (insertLe_perm key x (sortByKey key xs)).trans (ih.cons x)

lemma insertLe_pairwise {α : Type} (key : α → String) (x : α) (l : List α)
    (hl : l.Pairwise (fun a b => key a ≤ key b)) :
    (insertLe key x l).Pairwise (fun a b => key a ≤ key b) := by
  induction l with
  | nil => simp [insertLe]
  | cons y ys ih =>
    rcases List.pairwise_cons.mp hl with ⟨hy, hys⟩
    by_cases h : key x ≤ key y
    · simp only [insertLe]
      rw [if_pos h]
      refine List.pairwise_cons.mpr ⟨?_, hl⟩
      intro z hz
      rcases List.mem_cons.mp hz with rfl | hz'
      · exact h
      · exact le_trans h (hy z hz')
    · simp only [insertLe]
      rw [if_neg h]
      refine List.pairwise_cons.mpr ⟨?_, ih hys⟩
      intro z hz
      have hz2 := (insertLe_perm key x ys).mem_iff.mp hz
      rcases List.mem_cons.mp hz2 with rfl | hz'
      · exact le_of_not_le h
      · exact hy z hz'

lemma sortByKey_pairwise {α : Type} (key : α → String) (l : List α) :
    (sortByKey key l).Pairwise (fun a b => key a ≤ key b) := by
  induction l with
  | nil => exact List.Pairwise.nil
  | cons x xs ih => exact insertLe_pairwise key x _ ih

/-- C3: the feed build is a pure function of its inputs, and its one source of
run-to-run nondeterminism on identical inputs — the enumeration order of the
normalized directory (`os.listdir`) — is neutralized by the `sorted(norm_files)`
pass: any two enumerations of the same files (filenames are necessarily
distinct within a directory) produce identical row lists for every emitted
table, hence byte-identical serialized tables.  The calendar/feed-info end date
derived from the run's current date is an explicit input here, fixed across the
two runs. -/
theorem C3_determinism (coords : Coords) (d aid an ed : String)
    (files1 files2 : List (String × NormTrip))
    (hperm : files1.Perm files2) (hnodup : (files1.map Prod.fst).Nodup) :
    buildGTFS coords d aid an ed files1 = buildGTFS coords d aid an ed files2 := by
  have hkey : sortByKey Prod.fst files1 = sortByKey Prod.fst files2 := by
    have p1 := sortByKey_perm Prod.fst files1
    have p2 := sortByKey_perm Prod.fst files2
    have hp : (sortByKey Prod.fst files1).Perm (sortByKey Prod.fst files2) :=
      p1.trans (hperm.trans p2.symm)
    have h0 : files1.Pairwise (fun a b : String × NormTrip => a.1 ≠ b.1) :=
      List.pairwise_map.mp hnodup
    have hne1 : (sortByKey Prod.fst files1).Pairwise
        (fun a b : String × NormTrip => a.1 ≠ b.1) :=
      (p1.pairwise_iff (fun hab => Ne.symm hab)).mpr h0
    have hne2 : (sortByKey Prod.fst files2).Pairwise
        (fun a b : String × NormTrip => a.1 ≠ b.1) :=
      ((p2.trans hperm.symm).pairwise_iff (fun hab => Ne.symm hab)).mpr h0
    have hlt1 : (sortByKey Prod.fst files1).Pairwise
        (fun a b : String × NormTrip => a.1 < b.1) :=
      ((sortByKey_pairwise Prod.fst files1).and hne1).imp
        (fun hab => lt_of_le_of_ne hab.1 hab.2)
    have hlt2 : (sortByKey Prod.fst files2).Pairwise
        (fun a b : String × NormTrip => a.1 < b.1) :=
      ((sortByKey_pairwise Prod.fst files2).and hne2).imp
        (fun hab => lt_of_le_of_ne hab.1 hab.2)
    haveI : IsAntisymm (String × NormTrip) (fun a b => a.1 < b.1) :=
      ⟨fun a b h1 h2 => absurd (h1.trans h2) (lt_irrefl _)⟩
    exact List.eq_of_perm_of_sorted hp hlt1 hlt2
  unfold buildGTFS
  rw [hkey]

def c3tripA : NormTrip := ⟨("100"), some ("NapoliCentrale"), some ("Torino"), []⟩

def c3tripB : NormTrip := ⟨("200"), some ("Torino"), some ("NapoliCentrale"), []⟩

def c3files1 : List (String × NormTrip) :=
  [(("200.normalized.json"), c3tripB), (("100.normalized.json"), c3tripA)]

def c3files2 : List (String × NormTrip) :=
  [(("100.normalized.json"), c3tripA), (("200.normalized.json"), c3tripB)]

/-- Witness for `C3_determinism`: the same two files enumerated in the two
possible orders. -/
theorem C3_determinism_witness :
    (c3files1.Perm c3files2 ∧ (c3files1.map Prod.fst).Nodup) ∧
    buildGTFS [] ("20250101") ("ITALO") ("Italo") ("20260101") c3files1 =
      buildGTFS [] ("20250101") ("ITALO") ("Italo") ("20260101") c3files2 :=
  ⟨⟨List.Perm.swap _ _ _, by decide⟩,
    C3_determinism [] ("20250101") ("ITALO") ("Italo") ("20260101") c3files1 c3files2
      (List.Perm.swap _ _ _) (by decide)⟩

/-! ### C6: route usage, dedup, sorted emission -/

/-- Every used route id is referenced by some trips row. -/
def UsedInv (st : BuildState) : Prop :=
  ∀ rid ∈ st.usedRouteIds, ∃ tr ∈ st.tripsRows, tr.route_id = rid

lemma processTrip_usedInv (coords : Coords) (d aid : String) (st : BuildState) (t : NormTrip)
    (h : UsedInv st) : UsedInv (processTrip coords d aid st t) := by
  simp only [processTrip]
  split
  · exact h
  · intro rid hrid
    rcases List.mem_append.mp hrid with hr | hr
    · obtain ⟨tr, htr, heq⟩ := h rid hr
      exact ⟨tr, List.mem_append_left _ htr, heq⟩
    · have hrr : rid = ("R_") ++ t.train_number := by simpa using hr
      subst hrr
      exact ⟨⟨("R_") ++ t.train_number, ("SVC_") ++ d,
        ("T_") ++ t.train_number ++ ("_") ++ d, t.train_number⟩,
        List.mem_append_right _ (by simp), rfl⟩

lemma foldl_usedInv (coords : Coords) (d aid : String) :
    ∀ (fs : List (String × NormTrip)) (st : BuildState), UsedInv st →
      UsedInv (List.foldl (fun acc ft => processTrip coords d aid acc ft.2) st fs) := by
  intro fs
  induction fs with
  | nil => intro st h; exact h
  | cons f rest ih =>
    intro st h
    exact ih _ (processTrip_usedInv coords d aid st f.2 h)

/-- The `dedup_routes` dict invariant: every entry's row carries its key as route
id, every key is used, and keys are distinct. -/
def DDInv (used : List String) (acc : List (String × RouteRow)) : Prop :=
  (∀ p ∈ acc, p.2.route_id = p.1 ∧ p.1 ∈ used) ∧ (acc.map Prod.fst).Nodup

lemma assocUpsert_ddinv (used : List String) (acc : List (String × RouteRow))
    (k : String) (v : RouteRow) (h : DDInv used acc) (hk : k ∈ used)
    (hv : v.route_id = k) : DDInv used (assocUpsert acc k v) := by
  constructor
  · intro p hp
    unfold assocUpsert at hp
    split at hp
    · rcases List.mem_map.mp hp with ⟨q, hq, hqe⟩
      by_cases hqk : q.1 = k
      · rw [if_pos hqk] at hqe
        subst hqe
        exact ⟨hv, hk⟩
      · rw [if_neg hqk] at hqe
        subst hqe
        exact h.1 q hq
    · rcases List.mem_append.mp hp with hp' | hp'
      · exact h.1 p hp'
      · have hpk : p = (k, v) := by simpa using hp'
        subst hpk
        exact ⟨hv, hk⟩
  · unfold assocUpsert
    split
    · have hmap : (acc.map (fun p => if p.1 = k then (k, v) else p)).map Prod.fst
          = acc.map Prod.fst := by
        rw [List.map_map]
        apply List.map_congr_left
        intro p _
        by_cases hpk : p.1 = k
        · simp [hpk]
        · simp [hpk]
      rw [hmap]
      exact h.2
    · rename_i hany
      rw [List.map_append]
      refine h.2.append (by simp) ?_
      intro a ha ha2
      have hak : a = k := by simpa using ha2
      subst hak
      rcases List.mem_map.mp ha with ⟨q, hq, hqa⟩
      exact hany (List.any_eq_true.mpr ⟨q, hq, by simp [hqa]⟩)

lemma dedupFold_ddinv (rows : List RouteRow) (used : List String) :
    DDInv used (dedupFold rows used) := by
  suffices h : ∀ (rs : List RouteRow) (acc : List (String × RouteRow)), DDInv used acc →
      DDInv used (rs.foldl
        (fun acc r => if r.route_id ∈ used then assocUpsert acc r.route_id r else acc) acc) by
    exact h rows [] ⟨by simp, by simp⟩
  intro rs
  induction rs with
  | nil => intro acc h; exact h
  | cons r rest ih =>
    intro acc h
    by_cases hu : r.route_id ∈ used
    · simp only [List.foldl_cons, if_pos hu]
      exact ih _ (assocUpsert_ddinv used acc r.route_id r h hu rfl)
    · simp only [List.foldl_cons, if_neg hu]
      exact ih _ h

lemma filterMap_find_ids (dd : List (String × RouteRow))
    (hdd : ∀ p ∈ dd, p.2.route_id = p.1) :
    ∀ keys : List String, (∀ k ∈ keys, k ∈ dd.map Prod.fst) →
      ((keys.filterMap
        (fun rid => (dd.find? (fun p => decide (p.1 = rid))).map Prod.snd)).map
          RouteRow.route_id) = keys := by
  intro keys
  induction keys with
  | nil => intro _; rfl
  | cons k ks ih =>
    intro hks
    have hkmem : k ∈ dd.map Prod.fst := hks k (List.mem_cons_self _ _)
    cases hfind : dd.find? (fun p => decide (p.1 = k)) with
    | none =>
      exfalso
      rcases List.mem_map.mp hkmem with ⟨q, hq, hqk⟩
      have hsome : (dd.find? (fun p => decide (p.1 = k))).isSome :=
        List.find?_isSome.mpr ⟨q, hq, by simp [hqk]⟩
      rw [hfind] at hsome
      simp at hsome
    | some q =>
      have hqd : q ∈ dd := List.mem_of_find?_eq_some hfind
      have hqk : q.1 = k := by simpa using List.find?_some hfind
      simp only [List.filterMap_cons, hfind, Option.map_some', List.map_cons]
      rw [ih (fun a ha => hks a (List.mem_cons_of_mem _ ha)), hdd q hqd, hqk]

lemma routesOut_mem (rows : List RouteRow) (used : List String) (r : RouteRow)
    (hr : r ∈ routesOut rows used) : r.route_id ∈ used := by
  unfold routesOut at hr
  rcases List.mem_filterMap.mp hr with ⟨k, _, hfk⟩
  cases hfind : (dedupFold rows used).find? (fun p => decide (p.1 = k)) with
  | none => rw [hfind] at hfk; simp at hfk
  | some q =>
    rw [hfind] at hfk
    have hq : q.2 = r := by simpa using hfk
    have hqd : q ∈ dedupFold rows used := List.mem_of_find?_eq_some hfind
    have hinv := (dedupFold_ddinv rows used).1 q hqd
    rw [← hq, hinv.1]
    exact hinv.2

lemma routesOut_ids (rows : List RouteRow) (used : List String) :
    (routesOut rows used).map RouteRow.route_id
      = sortByKey id ((dedupFold rows used).map Prod.fst) := by
  unfold routesOut
  apply filterMap_find_ids _ (fun p hp => ((dedupFold_ddinv rows used).1 p hp).1)
  intro k hk
  exact (sortByKey_perm id _).mem_iff.mp hk

/-- C6: every route row in the emitted routes table is referenced by at least one
trips row (routes are appended only together with their trip, then filtered by
the used-route set), and the emitted route ids are deduplicated and sorted
ascending. -/
theorem C6_route_usage (coords : Coords) (d aid an ed : String)
    (files : List (String × NormTrip)) :
    (∀ r ∈ (buildGTFS coords d aid an ed files).routesRows,
        ∃ tr ∈ (buildGTFS coords d aid an ed files).tripsRows, tr.route_id = r.route_id) ∧
    ((buildGTFS coords d aid an ed files).routesRows.map RouteRow.route_id).Pairwise (· ≤ ·) ∧
    ((buildGTFS coords d aid an ed files).routesRows.map RouteRow.route_id).Nodup := by
  have hused : UsedInv ((sortByKey Prod.fst files).foldl
      (fun acc ft => processTrip coords d aid acc ft.2) ⟨⟨[], [], []⟩, [], [], [], []⟩) :=
    foldl_usedInv coords d aid _ _ (by intro rid hrid; simp at hrid)
  refine ⟨?_, ?_, ?_⟩
  · intro r hr
    have hrm : r.route_id ∈ ((sortByKey Prod.fst files).foldl
        (fun acc ft => processTrip coords d aid acc ft.2)
        ⟨⟨[], [], []⟩, [], [], [], []⟩).usedRouteIds :=
      routesOut_mem _ _ r hr
    exact hused _ hrm
  · rw [show (buildGTFS coords d aid an ed files).routesRows
        = routesOut ((sortByKey Prod.fst files).foldl
            (fun acc ft => processTrip coords d aid acc ft.2)
            ⟨⟨[], [], []⟩, [], [], [], []⟩).routesRows
          ((sortByKey Prod.fst files).foldl
            (fun acc ft => processTrip coords d aid acc ft.2)
            ⟨⟨[], [], []⟩, [], [], [], []⟩).usedRouteIds from rfl, routesOut_ids]
    exact sortByKey_pairwise id _
  · rw [show (buildGTFS coords d aid an ed files).routesRows
        = routesOut ((sortByKey Prod.fst files).foldl
            (fun acc ft => processTrip coords d aid acc ft.2)
            ⟨⟨[], [], []⟩, [], [], [], []⟩).routesRows
          ((sortByKey Prod.fst files).foldl
            (fun acc ft => processTrip coords d aid acc ft.2)
            ⟨⟨[], [], []⟩, [], [], [], []⟩).usedRouteIds from rfl, routesOut_ids]
    exact ((sortByKey_perm id _).nodup_iff).mpr (dedupFold_ddinv _ _).2

/-! ### C4: the coordinate gate -/

/-- The registry invariant: every emitted stops row passed the coordinate gate on
its own name; every key maps to `STOP_<key>` backed by a stops row; every seen
stop id is backed by a stops row. -/
def RegInv (coords : Coords) (reg : Registry) : Prop :=
  (∀ row ∈ reg.stopsRows, keep_stop coords row.stop_name = true) ∧
  (∀ p ∈ reg.stopIdByKey, p.2 = ("STOP_") ++ p.1 ∧
    ∃ row ∈ reg.stopsRows, row.stop_id = p.2) ∧
  (∀ sid ∈ reg.seenStopIds, ∃ row ∈ reg.stopsRows, row.stop_id = sid)

lemma stop_key_ne (code name : String) (hname : pyStrip name = name)
    (hne : name ≠ ("")) : stop_key code name ≠ ("") := by
  unfold stop_key
  by_cases h : pyStrip code ≠ ("")
  · rw [if_pos h]; exact h
  · rw [if_neg h, hname]; exact hne

lemma ensKey_eq (code name : String) (hname : pyStrip name = name)
    (hne : name ≠ ("")) : ensKey code name = stop_key code name := by
  unfold ensKey
  rw [if_neg (stop_key_ne code name hname hne)]

lemma ensRowName_eq (name key : String) (hname : pyStrip name = name)
    (hne : name ≠ ("")) : ensRowName name key = name := by
  unfold ensRowName
  rw [if_neg hne, hname, if_neg hne]

lemma ensure_stop_spec (coords : Coords) (reg : Registry) (code name : String)
    (hname : pyStrip name = name) (hne : name ≠ (""))
    (hkeep : keep_stop coords name = true) (hinv : RegInv coords reg) :
    RegInv coords (ensure_stop coords reg code name).1 ∧
    (∀ p ∈ reg.stopIdByKey, p ∈ (ensure_stop coords reg code name).1.stopIdByKey) ∧
    (∀ row ∈ reg.stopsRows, row ∈ (ensure_stop coords reg code name).1.stopsRows) ∧
    ((stop_key code name, ("STOP_") ++ stop_key code name)
      ∈ (ensure_stop coords reg code name).1.stopIdByKey) := by
  rw [← ensKey_eq code name hname hne]
  unfold ensure_stop
  cases hfind : reg.stopIdByKey.find? (fun p => decide (p.1 = ensKey code name)) with
  | some p =>
    simp only [hfind]
    refine ⟨hinv, fun q hq => hq, fun row hr => hr, ?_⟩
    have hp1 : p.1 = ensKey code name := by simpa using List.find?_some hfind
    have hpd : p ∈ reg.stopIdByKey := List.mem_of_find?_eq_some hfind
    have hp2 : p.2 = ("STOP_") ++ p.1 := (hinv.2.1 p hpd).1
    have hpe : (ensKey code name, ("STOP_") ++ ensKey code name) = p := by
      rw [← hp1, ← hp2]
    rw [hpe]
    exact hpd
  | none =>
    simp only [hfind]
    unfold ensInsert
    by_cases hseen : ("STOP_") ++ ensKey code name ∈ reg.seenStopIds
    · rw [if_pos hseen]
      refine ⟨⟨hinv.1, ?_, hinv.2.2⟩, fun q hq => List.mem_append_left _ hq,
        fun row hr => hr, List.mem_append_right _ (by simp)⟩
      intro q hq
      rcases List.mem_append.mp hq with h1 | h2
      · exact hinv.2.1 q h1
      · have hq2 : q = (ensKey code name, ("STOP_") ++ ensKey code name) := by simpa using h2
        subst hq2
        exact ⟨rfl, hinv.2.2 _ hseen⟩
    · rw [if_neg hseen]
      refine ⟨⟨?_, ?_, ?_⟩, fun q hq => List.mem_append_left _ hq,
        fun row hr => List.mem_append_left _ hr, List.mem_append_right _ (by simp)⟩
      · intro row hr
        rcases List.mem_append.mp hr with h1 | h2
        · exact hinv.1 row h1
        · have hr2 : row = ⟨("STOP_") ++ ensKey code name, ensRowName name (ensKey code name),
              (ensRowLatLon coords (ensRowName name (ensKey code name))).1,
              (ensRowLatLon coords (ensRowName name (ensKey code name))).2,
              pyStrip code⟩ := by simpa using h2
          subst hr2
          show keep_stop coords (ensRowName name (ensKey code name)) = true
          rw [ensRowName_eq name _ hname hne]
          exact hkeep
      · intro q hq
        rcases List.mem_append.mp hq with h1 | h2
        · obtain ⟨hq1, row, hrow, hrid⟩ := hinv.2.1 q h1
          exact ⟨hq1, row, List.mem_append_left _ hrow, hrid⟩
        · have hq2 : q = (ensKey code name, ("STOP_") ++ ensKey code name) := by simpa using h2
          subst hq2
          exact ⟨rfl, ⟨("STOP_") ++ ensKey code name, ensRowName name (ensKey code name),
            (ensRowLatLon coords (ensRowName name (ensKey code name))).1,
            (ensRowLatLon coords (ensRowName name (ensKey code name))).2, pyStrip code⟩,
            List.mem_append_right _ (by simp), rfl⟩
      · intro sid hsid
        rcases List.mem_append.mp hsid with h1 | h2
        · obtain ⟨row, hrow, hrid⟩ := hinv.2.2 sid h1
          exact ⟨row, List.mem_append_left _ hrow, hrid⟩
        · have hs2 : sid = ("STOP_") ++ ensKey code name := by simpa using h2
          subst hs2
          exact ⟨⟨("STOP_") ++ ensKey code name, ensRowName name (ensKey code name),
            (ensRowLatLon coords (ensRowName name (ensKey code name))).1,
            (ensRowLatLon coords (ensRowName name (ensKey code name))).2, pyStrip code⟩,
            List.mem_append_right _ (by simp), rfl⟩

lemma processStops_regInv (coords : Coords) (tid : String) :
    ∀ (stops : List NormStop) (reg : Registry) (seq : Nat), RegInv coords reg →
      RegInv coords (processStops coords tid reg seq stops).1 ∧
      (∀ p ∈ reg.stopIdByKey, p ∈ (processStops coords tid reg seq stops).1.stopIdByKey) ∧
      (∀ row ∈ reg.stopsRows, row ∈ (processStops coords tid reg seq stops).1.stopsRows) := by
  intro stops
  induction stops with
  | nil => intro reg seq h; exact ⟨h, fun p hp => hp, fun r hr => hr⟩
  | cons s rest ih =>
    intro reg seq h
    by_cases h1 : pyStrip (s.stop_name.getD ("")) = ("")
    · simp only [processStops]
      rw [if_pos h1]
      exact ih reg seq h
    · by_cases h2 : keep_stop coords (pyStrip (s.stop_name.getD (""))) = false
      · simp only [processStops]
        rw [if_neg h1, if_pos h2]
        exact ih reg seq h
      · simp only [processStops]
        rw [if_neg h1, if_neg h2]
        have hkeep : keep_stop coords (pyStrip (s.stop_name.getD (""))) = true := by
          revert h2
          cases keep_stop coords (pyStrip (s.stop_name.getD (""))) <;> simp
        have hes := ensure_stop_spec coords reg (pyStrip (s.location_code.getD ("")))
          (pyStrip (s.stop_name.getD (""))) (pyStrip_idem _) h1 hkeep h
        have hrest := ih (ensure_stop coords reg (pyStrip (s.location_code.getD ("")))
          (pyStrip (s.stop_name.getD ("")))).1 (seq + 1) hes.1
        exact ⟨hrest.1,
          fun p hp => hrest.2.1 p (hes.2.1 p hp),
          fun row hr => hrest.2.2 row (hes.2.2.1 row hr)⟩

lemma processStops_key_mem (coords : Coords) (tid : String) :
    ∀ (stops : List NormStop) (reg : Registry) (seq : Nat) (s : NormStop),
      RegInv coords reg → s ∈ stops →
      pyStrip (s.stop_name.getD ("")) ≠ ("") →
      keep_stop coords (pyStrip (s.stop_name.getD (""))) = true →
      (stop_key (pyStrip (s.location_code.getD (""))) (pyStrip (s.stop_name.getD (""))),
        ("STOP_") ++ stop_key (pyStrip (s.location_code.getD ("")))
          (pyStrip (s.stop_name.getD ("")))) ∈
        (processStops coords tid reg seq stops).1.stopIdByKey := by
  intro stops
  induction stops with
  | nil => intro reg seq s _ hs; exact absurd hs (List.not_mem_nil s)
  | cons x rest ih =>
    intro reg seq s hinv hs hne hkeep
    rcases List.mem_cons.mp hs with rfl | hs'
    · simp only [processStops]
      rw [if_neg hne, if_neg (by rw [hkeep]; exact fun hc => Bool.noConfusion hc)]
      have hes := ensure_stop_spec coords reg (pyStrip (s.location_code.getD ("")))
        (pyStrip (s.stop_name.getD (""))) (pyStrip_idem _) hne hkeep hinv
      have hrest := processStops_regInv coords tid rest
        (ensure_stop coords reg (pyStrip (s.location_code.getD ("")))
          (pyStrip (s.stop_name.getD ("")))).1 (seq + 1) hes.1
      exact hrest.2.1 _ hes.2.2.2
    · by_cases h1 : pyStrip (x.stop_name.getD ("")) = ("")
      · simp only [processStops]
        rw [if_pos h1]
        exact ih reg seq s hinv hs' hne hkeep
      · by_cases h2 : keep_stop coords (pyStrip (x.stop_name.getD (""))) = false
        · simp only [processStops]
          rw [if_neg h1, if_pos h2]
          exact ih reg seq s hinv hs' hne hkeep
        · simp only [processStops]
          rw [if_neg h1, if_neg h2]
          have hkeepx : keep_stop coords (pyStrip (x.stop_name.getD (""))) = true := by
            revert h2
            cases keep_stop coords (pyStrip (x.stop_name.getD (""))) <;> simp
          have hes := ensure_stop_spec coords reg (pyStrip (x.location_code.getD ("")))
            (pyStrip (x.stop_name.getD (""))) (pyStrip_idem _) h1 hkeepx hinv
          exact ih _ (seq + 1) s hes.1 hs' hne hkeep

lemma processTrip_reg (coords : Coords) (d aid : String) (st : BuildState) (t : NormTrip) :
    (processTrip coords d aid st t).reg =
      (processStops coords (("T_") ++ t.train_number ++ ("_") ++ d) st.reg 0 t.stops).1 := by
  simp only [processTrip]
  split <;> rfl

lemma foldl_regInv (coords : Coords) (d aid : String) :
    ∀ (fs : List (String × NormTrip)) (st : BuildState), RegInv coords st.reg →
      RegInv coords ((List.foldl (fun acc ft => processTrip coords d aid acc ft.2) st fs).reg) ∧
      (∀ p ∈ st.reg.stopIdByKey,
        p ∈ ((List.foldl (fun acc ft => processTrip coords d aid acc ft.2) st fs).reg).stopIdByKey) := by
  intro fs
  induction fs with
  | nil => intro st h; exact ⟨h, fun p hp => hp⟩
  | cons f rest ih =>
    intro st h
    have hr1 := processStops_regInv coords (("T_") ++ f.2.train_number ++ ("_") ++ d)
      f.2.stops st.reg 0 h
    have hreg : RegInv coords ((processTrip coords d aid st f.2).reg) := by
      rw [processTrip_reg]
      exact hr1.1
    have hmono : ∀ p ∈ st.reg.stopIdByKey,
        p ∈ ((processTrip coords d aid st f.2).reg).stopIdByKey := by
      rw [processTrip_reg]
      exact hr1.2.1
    have hrest := ih (processTrip coords d aid st f.2) hreg
    exact ⟨hrest.1, fun p hp => hrest.2 p (hmono p hp)⟩

lemma foldl_key_mem (coords : Coords) (d aid : String) :
    ∀ (fs : List (String × NormTrip)) (st : BuildState), RegInv coords st.reg →
      ∀ ft ∈ fs, ∀ s ∈ (ft : String × NormTrip).2.stops,
      pyStrip (s.stop_name.getD ("")) ≠ ("") →
      keep_stop coords (pyStrip (s.stop_name.getD (""))) = true →
      (stop_key (pyStrip (s.location_code.getD (""))) (pyStrip (s.stop_name.getD (""))),
        ("STOP_") ++ stop_key (pyStrip (s.location_code.getD ("")))
          (pyStrip (s.stop_name.getD ("")))) ∈
        ((List.foldl (fun acc ft => processTrip coords d aid acc ft.2) st fs).reg).stopIdByKey := by
  intro fs
  induction fs with
  | nil => intro st _ ft hft; exact absurd hft (List.not_mem_nil ft)
  | cons f rest ih =>
    intro st hinv ft hft s hs hne hkeep
    have hr1 := processStops_regInv coords (("T_") ++ f.2.train_number ++ ("_") ++ d)
      f.2.stops st.reg 0 hinv
    have hreg : RegInv coords ((processTrip coords d aid st f.2).reg) := by
      rw [processTrip_reg]
      exact hr1.1
    rcases List.mem_cons.mp hft with rfl | hft'
    · have hk := processStops_key_mem coords (("T_") ++ ft.2.train_number ++ ("_") ++ d)
        ft.2.stops st.reg 0 s hinv hs hne hkeep
      have hmono := (foldl_regInv coords d aid rest (processTrip coords d aid st ft.2) hreg).2
      apply hmono
      rw [processTrip_reg]
      exact hk
    · exact ih (processTrip coords d aid st f.2) hreg ft hft' s hs hne hkeep

/-- C4 (amended): for every stop observation processed during a run (a stop of
some input trip whose stripped name is nonempty): (a) if the name passes the
coordinate gate, the emitted stops table contains a row whose stop id is
`STOP_<key>` for that observation's identity key (code-or-name); and (b) every
row of the emitted stops table has a name that passes the coordinate gate.
The claim's literal per-name iff fails when two distinct names share a location
code: only the first name observed for a key produces a row (see the
counterexample). -/
theorem C4_coordinate_gate (coords : Coords) (d aid an ed : String)
    (files : List (String × NormTrip)) (fn : String) (t : NormTrip) (s : NormStop)
    (hmem : (fn, t) ∈ files) (hs : s ∈ t.stops)
    (hne : pyStrip (s.stop_name.getD ("")) ≠ (""))
    (hkeep : keep_stop coords (pyStrip (s.stop_name.getD (""))) = true) :
    (∃ row ∈ (buildGTFS coords d aid an ed files).stopsRows,
        row.stop_id = ("STOP_") ++ stop_key (pyStrip (s.location_code.getD ("")))
          (pyStrip (s.stop_name.getD ("")))) ∧
    (∀ row ∈ (buildGTFS coords d aid an ed files).stopsRows,
        keep_stop coords row.stop_name = true) := by
  have hinit : RegInv coords (⟨[], [], []⟩ : Registry) :=
    ⟨by intro row hr; exact absurd hr (List.not_mem_nil row),
     by intro p hp; exact absurd hp (List.not_mem_nil p),
     by intro sid hsid; exact absurd hsid (List.not_mem_nil sid)⟩
  have hmem' : (fn, t) ∈ sortByKey Prod.fst files :=
    (sortByKey_perm Prod.fst files).mem_iff.mpr hmem
  have hfold := foldl_key_mem coords d aid (sortByKey Prod.fst files)
    ⟨⟨[], [], []⟩, [], [], [], []⟩ hinit (fn, t) hmem' s hs hne hkeep
  have hfinal := (foldl_regInv coords d aid (sortByKey Prod.fst files)
    ⟨⟨[], [], []⟩, [], [], [], []⟩ hinit).1
  constructor
  · obtain ⟨_, row, hrow, hrid⟩ := hfinal.2.1 _ hfold
    exact ⟨row, hrow, hrid⟩
  · exact hfinal.1

def c4wcoords : Coords := [(("Verona"), ("45.4"), ("10.9")), (("Padova"), ("45.4"), ("11.9"))]

def c4wstop0 : NormStop := ⟨0, some ("Verona"), some ("VR"), none, some ("08:00:00")⟩

def c4wtrip : NormTrip :=
  ⟨("9500"), some ("Verona"), some ("Padova"),
    [c4wstop0, ⟨1, some ("Padova"), some ("PD"), some ("09:00:00"), none⟩]⟩

def c4wfiles : List (String × NormTrip) := [(("9500.normalized.json"), c4wtrip)]

/-- Witness for `C4_coordinate_gate` at a concrete run. -/
theorem C4_coordinate_gate_witness :
    (((("9500.normalized.json"), c4wtrip) ∈ c4wfiles) ∧ (c4wstop0 ∈ c4wtrip.stops) ∧
      (pyStrip (c4wstop0.stop_name.getD ("")) ≠ ("")) ∧
      (keep_stop c4wcoords (pyStrip (c4wstop0.stop_name.getD (""))) = true)) ∧
    ((∃ row ∈ (buildGTFS c4wcoords ("20250101") ("ITALO") ("Italo") ("20260101")
          c4wfiles).stopsRows,
        row.stop_id = ("STOP_") ++ stop_key (pyStrip (c4wstop0.location_code.getD ("")))
          (pyStrip (c4wstop0.stop_name.getD ("")))) ∧
      (∀ row ∈ (buildGTFS c4wcoords ("20250101") ("ITALO") ("Italo") ("20260101")
          c4wfiles).stopsRows, keep_stop c4wcoords row.stop_name = true)) :=
  ⟨⟨by decide, by decide, by decide, by decide⟩,
    C4_coordinate_gate c4wcoords ("20250101") ("ITALO") ("Italo") ("20260101") c4wfiles
      ("9500.normalized.json") c4wtrip c4wstop0 (by decide) (by decide) (by decide) (by decide)⟩

def c4coords : Coords := [(("Arezzo"), ("43.46"), ("11.88")), (("Chiusi"), ("43.01"), ("11.94"))]

def c4trip : NormTrip :=
  ⟨("9400"), some ("Arezzo"), some ("Chiusi"),
    [⟨0, some ("Arezzo"), some ("XX"), none, some ("08:00:00")⟩,
     ⟨1, some ("Chiusi"), some ("XX"), some ("09:00:00"), none⟩]⟩

def c4files : List (String × NormTrip) := [(("9400.normalized.json"), c4trip)]

/-- C4 counterexample: two distinct names, `Arezzo` and `Chiusi`, share location
code `XX`, so they collapse to one identity key.  `Chiusi` is observed, its
coordinate lookup is valid, and its stop-times row is emitted (referencing
`STOP_XX`), yet the emitted stops table contains a single row, named `Arezzo` —
no Stop row exists for the observed name `Chiusi`, refuting the per-name iff as
stated. -/
theorem C4_counterexample :
    keep_stop c4coords ("Chiusi") = true ∧
    (some ("Chiusi")) ∈ c4trip.stops.map NormStop.stop_name ∧
    ((buildGTFS c4coords ("20250101") ("ITALO") ("Italo") ("20260101") c4files).stopTimesRows.map
        StopTimeRow.stop_id) = [("STOP_XX"), ("STOP_XX")] ∧
    (∀ row ∈ (buildGTFS c4coords ("20250101") ("ITALO") ("Italo") ("20260101")
        c4files).stopsRows, row.stop_name ≠ ("Chiusi")) ∧
    (buildGTFS c4coords ("20250101") ("ITALO") ("Italo") ("20260101")
        c4files).stopsRows.length = 1 := by
  decide

end ItaloScraper
